import Mathlib

/-!
Verification of the promptcraft file chunking and filtering subsystem.

This file shallowly embeds the core algorithms of
`promptcraft/file_chunker.py`, `promptcraft/file_filter.py` and
`promptcraft/file_browser.py` as executable Lean definitions and proves
properties about them.

Conventions of the embedding:
* Python line numbers and sizes are `Nat`; values that can be negative in
  Python (brace counters, complexity arithmetic) are `Int`.
* File-system reads are abstracted by `ReadResult` (a Python `open` + `read`
  either raises or yields the whole decoded text).  The subsystem is
  single-threaded, so the re-read performed by `_create_fallback_chunk`
  observes the same `ReadResult` as the initial read.
* CPython's `ast.parse` is abstracted by a `String → Option (List PyStmt)`
  parameter (`none` models a raised `SyntaxError`); statement-level AST
  nodes carry the `lineno`/`end_lineno` attributes the chunker reads.
* The `re` patterns of the JavaScript chunker are transliterated into
  character-level matchers (ASCII `\w`/`\s`, which is exact on the inputs
  considered here).
-/

/-- Mirrors `ChunkType` of `file_chunker.py`. -/
inductive ChunkType where
  | FUNCTION
  | CLASS
  | METHOD
  | COMPONENT
  | HOOK
  | INTERFACE
  | TYPE
  | IMPORT
  | VARIABLE
  | COMMENT
deriving DecidableEq, Repr

/-- Mirrors the `CodeChunk` dataclass of `file_chunker.py`. -/
structure CodeChunk where
  name : String
  chunk_type : ChunkType
  content : String
  start_line : Nat
  end_line : Nat
  file_path : String
  parent : Option String := none
  docstring : Option String := none
  signature : Option String := none
  complexity_score : Int := 0
deriving DecidableEq, Repr

/-- Result of `open(file_path).read()`: either the decoded text of the
file, or a raised `OSError`/`UnicodeDecodeError`. -/
inductive ReadResult where
  | unreadable
  | content (s : String)
deriving DecidableEq, Repr

/-- Python line-boundary characters recognised by `str.splitlines`. -/
def lineBreakChar (c : Char) : Bool :=
  c = '\n' || c = '\r' || c = '\x0b' || c = '\x0c' ||
  c = '\x1c' || c = '\x1d' || c = '\x1e' || c = '\x85' ||
  c = '\u2028' || c = '\u2029'

/-- Worker for `pySplitlines`; `acc` holds the current line reversed, and
`skipLF` records that the previous character was a `'\r'` whose boundary
has already been emitted, so an immediately following `'\n'` belongs to
the same `"\r\n"` boundary. -/
def pySplitlinesAux : Bool → List Char → List Char → List String
  | _, [], acc => if acc.isEmpty then [] else [String.mk acc.reverse]
  | skipLF, c :: rest, acc =>
      if skipLF && c = '\n' then pySplitlinesAux false rest acc
      else if c = '\r' then String.mk acc.reverse :: pySplitlinesAux true rest []
      else if lineBreakChar c then String.mk acc.reverse :: pySplitlinesAux false rest []
      else pySplitlinesAux false rest (c :: acc)

/-- Python `str.splitlines()`. -/
def pySplitlines (s : String) : List String := pySplitlinesAux false s.data []

/-- Does `p` occur at the head of `s`? -/
def leadsWith : List Char → List Char → Bool
  | [], _ => true
  | _ :: _, [] => false
  | p :: ps, c :: cs => p = c && leadsWith ps cs

/-- Strip `p` from the head of `s` (`none` when `p` is not a prefix). -/
def stripLead : List Char → List Char → Option (List Char)
  | [], s => some s
  | _ :: _, [] => none
  | p :: ps, c :: cs => if p = c then stripLead ps cs else none

/-- Worker for `pyCount`: the left-to-right non-overlapping scan of
`str.count`, with `fuel` an upper bound on the number of characters left
(each step consumes at least one character for non-empty `p`). -/
def pyCountAux (p : List Char) : Nat → List Char → Nat
  | 0, _ => 0
  | fuel + 1, s =>
      match stripLead p s with
      | some rest => 1 + pyCountAux p fuel rest
      | none =>
          match s with
          | [] => 0
          | _ :: cs => pyCountAux p fuel cs

/-- Python `str.count(sub)` (non-overlapping occurrences, scanning left
to right; `len(s) + 1` for the empty needle as in Python). -/
def pyCount (s sub : String) : Nat :=
  match sub.data with
  | [] => s.data.length + 1
  | p => pyCountAux p s.data.length s.data

/-- Python `sub in s` (substring containment). -/
def pyContains (s sub : String) : Bool := 0 < pyCount s sub

/-- Python whitespace stripped by `str.strip()` and matched by an ASCII
`\s` of the `re` module. -/
def isSpaceChar (c : Char) : Bool :=
  c = ' ' || c = '\t' || c = '\n' || c = '\r' || c = '\x0b' || c = '\x0c'

/-- Python `str.strip()`. -/
def pyStrip (s : String) : String :=
  String.mk (((s.data.dropWhile isSpaceChar).reverse.dropWhile isSpaceChar).reverse)

/-- Python `str.lower()` (ASCII; all table entries are ASCII). -/
def pyLower (s : String) : String := String.mk (s.data.map Char.toLower)

/-- Python `str.startswith(p)`. -/
def pyStartsWith (s p : String) : Bool := leadsWith p.data s.data

/-- Python `str.endswith(p)`. -/
def pyEndsWith (s p : String) : Bool := leadsWith p.data.reverse s.data.reverse

/-- The 1-based inclusive line range `[start, stop]` of a line list
(used to state the round-trip property). -/
def slice1 (lines : List String) (start stop : Nat) : List String :=
  (lines.drop (start - 1)).take (stop + 1 - start)

/-- Python `range(a, b)` as a list. -/
def pyRange (a b : Nat) : List Nat := List.range' a (b - a)

section PythonChunkerDefs

/-- Statement-level Python AST as read by `PythonChunker`: the only
attributes the chunker consults are node kind, `lineno`, `end_lineno`,
`name`, argument names and the statement body.  `exprStr` is a bare
string-literal expression statement (the docstring shape recognised by
`_extract_docstring`); `other` covers every remaining statement, with
`body` the concatenated statement bodies `ast.walk` descends into. -/
inductive PyStmt where
  | importStmt (lineno endLineno : Nat)
  | funcDef (name : String) (args : List String) (lineno endLineno : Nat) (body : List PyStmt)
  | classDef (name : String) (lineno endLineno : Nat) (body : List PyStmt)
  | exprStr (s : String) (lineno endLineno : Nat)
  | other (lineno endLineno : Nat) (body : List PyStmt)

mutual
/-- Structural decidable equality of AST nodes: the embedding of the
`node in parent.body` membership test of `parse_file` (CPython compares
AST nodes by identity; for the distinct subtrees of one parsed module
this coincides with structural equality). -/
def PyStmt.decEq : (a b : PyStmt) → Decidable (a = b)
  | .importStmt l e, .importStmt l' e' =>
      if hl : l = l' then
        if he : e = e' then isTrue (by rw [hl, he])
        else isFalse fun h => by cases h; exact he rfl
      else isFalse fun h => by cases h; exact hl rfl
  | .funcDef n a l e b, .funcDef n' a' l' e' b' =>
      if hn : n = n' then
        if ha : a = a' then
          if hl : l = l' then
            if he : e = e' then
              match decEqListP b b' with
              | isTrue hb => isTrue (by rw [hn, ha, hl, he, hb])
              | isFalse hb => isFalse fun h => by cases h; exact hb rfl
            else isFalse fun h => by cases h; exact he rfl
          else isFalse fun h => by cases h; exact hl rfl
        else isFalse fun h => by cases h; exact ha rfl
      else isFalse fun h => by cases h; exact hn rfl
  | .classDef n l e b, .classDef n' l' e' b' =>
      if hn : n = n' then
        if hl : l = l' then
          if he : e = e' then
            match decEqListP b b' with
            | isTrue hb => isTrue (by rw [hn, hl, he, hb])
            | isFalse hb => isFalse fun h => by cases h; exact hb rfl
          else isFalse fun h => by cases h; exact he rfl
        else isFalse fun h => by cases h; exact hl rfl
      else isFalse fun h => by cases h; exact hn rfl
  | .exprStr s l e, .exprStr s' l' e' =>
      if hs : s = s' then
        if hl : l = l' then
          if he : e = e' then isTrue (by rw [hs, hl, he])
          else isFalse fun h => by cases h; exact he rfl
        else isFalse fun h => by cases h; exact hl rfl
      else isFalse fun h => by cases h; exact hs rfl
  | .other l e b, .other l' e' b' =>
      if hl : l = l' then
        if he : e = e' then
          match decEqListP b b' with
          | isTrue hb => isTrue (by rw [hl, he, hb])
          | isFalse hb => isFalse fun h => by cases h; exact hb rfl
        else isFalse fun h => by cases h; exact he rfl
      else isFalse fun h => by cases h; exact hl rfl
  | .importStmt _ _, .funcDef _ _ _ _ _ => isFalse fun h => PyStmt.noConfusion h
  | .importStmt _ _, .classDef _ _ _ _ => isFalse fun h => PyStmt.noConfusion h
  | .importStmt _ _, .exprStr _ _ _ => isFalse fun h => PyStmt.noConfusion h
  | .importStmt _ _, .other _ _ _ => isFalse fun h => PyStmt.noConfusion h
  | .funcDef _ _ _ _ _, .importStmt _ _ => isFalse fun h => PyStmt.noConfusion h
  | .funcDef _ _ _ _ _, .classDef _ _ _ _ => isFalse fun h => PyStmt.noConfusion h
  | .funcDef _ _ _ _ _, .exprStr _ _ _ => isFalse fun h => PyStmt.noConfusion h
  | .funcDef _ _ _ _ _, .other _ _ _ => isFalse fun h => PyStmt.noConfusion h
  | .classDef _ _ _ _, .importStmt _ _ => isFalse fun h => PyStmt.noConfusion h
  | .classDef _ _ _ _, .funcDef _ _ _ _ _ => isFalse fun h => PyStmt.noConfusion h
  | .classDef _ _ _ _, .exprStr _ _ _ => isFalse fun h => PyStmt.noConfusion h
  | .classDef _ _ _ _, .other _ _ _ => isFalse fun h => PyStmt.noConfusion h
  | .exprStr _ _ _, .importStmt _ _ => isFalse fun h => PyStmt.noConfusion h
  | .exprStr _ _ _, .funcDef _ _ _ _ _ => isFalse fun h => PyStmt.noConfusion h
  | .exprStr _ _ _, .classDef _ _ _ _ => isFalse fun h => PyStmt.noConfusion h
  | .exprStr _ _ _, .other _ _ _ => isFalse fun h => PyStmt.noConfusion h
  | .other _ _ _, .importStmt _ _ => isFalse fun h => PyStmt.noConfusion h
  | .other _ _ _, .funcDef _ _ _ _ _ => isFalse fun h => PyStmt.noConfusion h
  | .other _ _ _, .classDef _ _ _ _ => isFalse fun h => PyStmt.noConfusion h
  | .other _ _ _, .exprStr _ _ _ => isFalse fun h => PyStmt.noConfusion h

/-- Structural decidable equality of AST node lists. -/
def decEqListP : (a b : List PyStmt) → Decidable (a = b)
  | [], [] => isTrue rfl
  | [], _ :: _ => isFalse fun h => List.noConfusion h
  | _ :: _, [] => isFalse fun h => List.noConfusion h
  | x :: xs, y :: ys =>
      match PyStmt.decEq x y, decEqListP xs ys with
      | isTrue h1, isTrue h2 => isTrue (by rw [h1, h2])
      | isFalse h1, _ => isFalse fun h => by cases h; exact h1 rfl
      | _, isFalse h2 => isFalse fun h => by cases h; exact h2 rfl
end

instance : DecidableEq PyStmt := PyStmt.decEq

/-- `node.lineno`. -/
def PyStmt.lineno : PyStmt → Nat
  | .importStmt l _ => l
  | .funcDef _ _ l _ _ => l
  | .classDef _ l _ _ => l
  | .exprStr _ l _ => l
  | .other l _ _ => l

/-- `node.end_lineno` (always set by CPython; the code's
`end_lineno or lineno` guard is mirrored where the source has it,
with `0` playing the role of the falsy value). -/
def PyStmt.endLineno : PyStmt → Nat
  | .importStmt _ e => e
  | .funcDef _ _ _ e _ => e
  | .classDef _ _ e _ => e
  | .exprStr _ _ e => e
  | .other _ e _ => e

/-- The child statements `ast.walk` descends into. -/
def PyStmt.children : PyStmt → List PyStmt
  | .importStmt _ _ => []
  | .funcDef _ _ _ _ b => b
  | .classDef _ _ _ b => b
  | .exprStr _ _ _ => []
  | .other _ _ b => b

/-- `isinstance(node, (ast.Import, ast.ImportFrom))`. -/
def PyStmt.isImportStmt : PyStmt → Bool
  | .importStmt _ _ => true
  | _ => false

/-- `isinstance(node, ast.ClassDef)`. -/
def PyStmt.isClassDef : PyStmt → Bool
  | .classDef _ _ _ _ => true
  | _ => false

/-- `isinstance(node, ast.FunctionDef)`. -/
def PyStmt.isFuncDef : PyStmt → Bool
  | .funcDef _ _ _ _ _ => true
  | _ => false

mutual
/-- Number of statement nodes in a subtree. -/
def PyStmt.size : PyStmt → Nat
  | .importStmt _ _ => 1
  | .funcDef _ _ _ _ b => 1 + sizeListP b
  | .classDef _ _ _ b => 1 + sizeListP b
  | .exprStr _ _ _ => 1
  | .other _ _ b => 1 + sizeListP b

/-- Number of statement nodes in a forest. -/
def sizeListP : List PyStmt → Nat
  | [] => 0
  | s :: rest => PyStmt.size s + sizeListP rest
end

/-- Fueled breadth-first traversal (the traversal order of `ast.walk`):
pop the queue head, yield it, push its children at the back. -/
def walkBFSAux : Nat → List PyStmt → List PyStmt
  | 0, _ => []
  | _, [] => []
  | fuel + 1, n :: rest => n :: walkBFSAux fuel (rest ++ n.children)

/-- `ast.walk` over a forest (the module body); `sizeListP q` steps always
suffice, so the fuel never runs out. -/
def walkBFS (q : List PyStmt) : List PyStmt := walkBFSAux (sizeListP q) q

/-- Well-formedness of one node's location attributes, as guaranteed by
CPython's parser for a file of `N` lines. -/
def wfNode (N : Nat) (s : PyStmt) : Prop :=
  1 ≤ s.lineno ∧ s.lineno ≤ s.endLineno ∧ s.endLineno ≤ N

instance (N : Nat) (s : PyStmt) : Decidable (wfNode N s) := by
  unfold wfNode; infer_instance

namespace PythonChunker

/-- `_get_node_content`: `'\n'.join(lines[node.lineno - 1 : (node.end_lineno or node.lineno)])`. -/
def _get_node_content (l e : Nat) (lines : List String) : String :=
  let e' := if e = 0 then l else e
  String.intercalate "\n" ((lines.drop (l - 1)).take (e' - (l - 1)))

/-- `_extract_docstring`: the first body statement when it is a bare
string-literal expression. -/
def _extract_docstring (body : List PyStmt) : Option String :=
  match body with
  | .exprStr s _ _ :: _ => some s
  | _ => none

/-- `_extract_function` (also used for methods, with `parent` set).
`ChunkType.METHOD if parent else ChunkType.FUNCTION` tests Python
truthiness, so an empty parent name also yields FUNCTION. -/
def _extract_function (name : String) (args : List String) (l e : Nat)
    (body : List PyStmt) (lines : List String) (filePath : String)
    (parent : Option String) : CodeChunk :=
  { name := name
    chunk_type := match parent with
      | some p => if p.isEmpty then ChunkType.FUNCTION else ChunkType.METHOD
      | none => ChunkType.FUNCTION
    content := _get_node_content l e lines
    start_line := l
    end_line := if e = 0 then l else e
    file_path := filePath
    parent := parent
    docstring := _extract_docstring body
    signature := some ("def " ++ name ++ "(" ++ String.intercalate ", " args ++ ")")
    complexity_score := (body.length : Int) + ((e : Int) - (l : Int)) }

/-- `_extract_class`: the class chunk followed by one METHOD chunk per
`FunctionDef` directly in the class body. -/
def _extract_class (name : String) (l e : Nat) (body : List PyStmt)
    (lines : List String) (filePath : String) : List CodeChunk :=
  { name := name
    chunk_type := ChunkType.CLASS
    content := _get_node_content l e lines
    start_line := l
    end_line := if e = 0 then l else e
    file_path := filePath
    parent := none
    docstring := _extract_docstring body
    signature := some ("class " ++ name)
    complexity_score := (body.length : Int) + ((e : Int) - (l : Int)) } ::
  body.filterMap fun item =>
    match item with
    | .funcDef nm args fl fe fb =>
        some (_extract_function nm args fl fe fb lines filePath (some name))
    | _ => none

end PythonChunker

/-- The 0-based line indices contributed to `import_lines`:
`range(node.lineno - 1, node.end_lineno if node.end_lineno else node.lineno)`
for every Import/ImportFrom node in walk order. -/
def pythonImportIdxs (nodes : List PyStmt) : List Nat :=
  nodes.flatMap fun n =>
    match n with
    | .importStmt l e => pyRange (l - 1) (if e = 0 then l else e)
    | _ => []

/-- The single imports chunk built from a list of 0-based line indices
(shared shape of the Python and JavaScript chunkers): empty index list
means no chunk, otherwise the chunk spans `min(idxs)` to `max(idxs)`. -/
def importsChunkOf (lines : List String) (filePath : String) : List Nat → Option CodeChunk
  | [] => none
  | i₀ :: rest =>
      let mn := rest.foldl Nat.min i₀
      let mx := rest.foldl Nat.max i₀
      some { name := "imports"
             chunk_type := ChunkType.IMPORT
             content := String.intercalate "\n" ((lines.drop mn).take (mx + 1 - mn))
             start_line := mn + 1
             end_line := mx + 1
             file_path := filePath }

/-- The guard excluding methods from the FUNCTION pass of
`PythonChunker.parse_file`: is `node` an element of the body of some
`ClassDef` anywhere in the tree? -/
def inClassBody (tree : List PyStmt) (node : PyStmt) : Bool :=
  (walkBFS tree).any fun p =>
    match p with
    | .classDef _ _ _ b => b.contains node
    | _ => false

/-- The chunk list `PythonChunker.parse_file` builds after a successful
`ast.parse`: the imports chunk (if any import lines exist), then, in
`ast.walk` order, class extractions and function extractions. -/
def pythonChunks (body : List PyStmt) (lines : List String) (filePath : String) :
    List CodeChunk :=
  (match importsChunkOf lines filePath (pythonImportIdxs (walkBFS body)) with
   | some c => [c]
   | none => []) ++
  (walkBFS body).flatMap fun n =>
    match n with
    | .classDef nm l e b => PythonChunker._extract_class nm l e b lines filePath
    | .funcDef nm args l e b =>
        if inClassBody body (.funcDef nm args l e b) then []
        else [PythonChunker._extract_function nm args l e b lines filePath none]
    | _ => []

namespace PythonChunker

/-- `_create_fallback_chunk`: re-reads the file; whole text on success,
a placeholder comment when even reading fails. -/
def _create_fallback_chunk (read : ReadResult) (stem filePath : String) : CodeChunk :=
  match read with
  | .content s =>
      { name := stem
        chunk_type := ChunkType.VARIABLE
        content := s
        start_line := 1
        end_line := (pySplitlines s).length
        file_path := filePath }
  | .unreadable =>
      { name := stem
        chunk_type := ChunkType.VARIABLE
        content := "# Unable to read file"
        start_line := 1
        end_line := 1
        file_path := filePath }

/-- `PythonChunker.parse_file`: read, parse, extract; any failure is
caught and answered with the single fallback chunk. -/
def parse_file (read : ReadResult) (parse : String → Option (List PyStmt))
    (stem filePath : String) : List CodeChunk :=
  match read with
  | .unreadable => [_create_fallback_chunk .unreadable stem filePath]
  | .content s =>
      match parse s with
      | some body => pythonChunks body (pySplitlines s) filePath
      | none => [_create_fallback_chunk (.content s) stem filePath]

end PythonChunker

end PythonChunkerDefs

section JavaScriptChunkerDefs

/-- Result of scanning the characters of one line in `_find_block_end`:
either the block closed on this line, or scanning continues with an
updated brace count and in-string state. -/
inductive ScanR where
  | closed
  | cont (brace : Int) (inStr : Option Char)
deriving DecidableEq, Repr

/-- The `while j < len(line)` character loop of `_find_block_end`.
`prev` is `line[j-1]` (`none` at the start of the line, so a quote at
position 0 is never treated as escaped), `inStr` is the
`in_string`/`string_char` pair.  String state is updated first; braces
are only counted when the updated state is "not in a string", and the
function returns as soon as a `'\x7d'` brings the count to zero. -/
def lineScan : List Char → Option Char → Int → Option Char → ScanR
  | [], _, brace, inStr => .cont brace inStr
  | c :: rest, prev, brace, inStr =>
      match inStr with
      | none =>
          if c = '"' || c = '\'' || c = '\x60' then
            lineScan rest (some c) brace (some c)
          else if c = '\x7b' then
            lineScan rest (some c) (brace + 1) none
          else if c = '\x7d' then
            if brace - 1 = 0 then .closed
            else lineScan rest (some c) (brace - 1) none
          else lineScan rest (some c) brace none
      | some sc =>
          if c = sc && !(prev = some '\\') then
            lineScan rest (some c) brace none
          else lineScan rest (some c) brace (some sc)

/-- The `for i in range(start_idx, len(lines))` loop of `_find_block_end`:
`rem` is `lines.drop i`.  Falls through to `len(lines)` when the braces
never balance. -/
def fbeGo (lines : List String) : List String → Nat → Int → Option Char → Nat
  | [], _, _, _ => lines.length
  | l :: rest, i, brace, inStr =>
      match lineScan l.data none brace inStr with
      | .closed => i + 1
      | .cont b' s' => fbeGo lines rest (i + 1) b' s'

namespace JavaScriptChunker

/-- `_find_block_end(lines, start_idx)`. -/
def _find_block_end (lines : List String) (startIdx : Nat) : Nat :=
  fbeGo lines (lines.drop startIdx) startIdx 0 none

/-- The chunk built by `_extract_by_pattern` for a regex match of `name`
on (0-based) line `i`. -/
def mkPatternChunk (lines : List String) (filePath : String) (ctype : ChunkType)
    (i : Nat) (line : String) (name : String) : CodeChunk :=
  let endLine := _find_block_end lines i
  let contentLines := (lines.drop i).take (endLine - i)
  let chunkContent := String.intercalate "\n" contentLines
  { name := name
    chunk_type := ctype
    content := chunkContent
    start_line := i + 1
    end_line := endLine
    file_path := filePath
    signature := some (pyStrip line)
    complexity_score := (contentLines.length : Int) + (pyCount chunkContent "\x7b" : Int) +
      (pyCount chunkContent "if" : Int) + (pyCount chunkContent "for" : Int) }

/-- The `for i, line in enumerate(lines)` loop of `_extract_by_pattern`;
`matcher` is the embedding of `re.match(pattern, line.strip())` returning
`group(1)`, and `rem = lines.drop i`. -/
def ebpAux (lines : List String) (filePath : String)
    (matcher : String → Option String) (ctype : ChunkType) :
    List String → Nat → List CodeChunk
  | [], _ => []
  | line :: rest, i =>
      (match matcher (pyStrip line) with
       | some name => [mkPatternChunk lines filePath ctype i line name]
       | none => []) ++ ebpAux lines filePath matcher ctype rest (i + 1)

/-- `_extract_by_pattern(content, lines, file_path, pattern, chunk_type)`. -/
def _extract_by_pattern (lines : List String) (filePath : String)
    (matcher : String → Option String) (ctype : ChunkType) : List CodeChunk :=
  ebpAux lines filePath matcher ctype lines 0

/-- The `import_lines` index collection of `_extract_imports`:
0-based indices of lines whose stripped text matches the import pattern. -/
def importIdxsAux (p : String → Bool) : List String → Nat → List Nat
  | [], _ => []
  | line :: rest, i =>
      (if p (pyStrip line) then [i] else []) ++ importIdxsAux p rest (i + 1)

/-- `_extract_imports`, given the embedded import-line pattern. -/
def _extract_imports (p : String → Bool) (lines : List String)
    (filePath : String) : Option CodeChunk :=
  importsChunkOf lines filePath (importIdxsAux p lines 0)

end JavaScriptChunker

end JavaScriptChunkerDefs

section JsPatternDefs

/-- ASCII `\w` of the `re` module. -/
def isWordChar (c : Char) : Bool := c.isAlphanum || c = '_'

/-- Greedy `\s*`. -/
def dropWS (cs : List Char) : List Char := cs.dropWhile isSpaceChar

/-- Greedy `\s+` (at least one whitespace character). -/
def ws1 (cs : List Char) : Option (List Char) :=
  match cs with
  | c :: rest => if isSpaceChar c then some (dropWS rest) else none
  | [] => none

/-- One whitespace character (`\s` when the continuation can absorb the
rest of a whitespace run). -/
def sp1 (cs : List Char) : Option (List Char) :=
  match cs with
  | c :: rest => if isSpaceChar c then some rest else none
  | [] => none

/-- A literal character sequence. -/
def lit : List Char → List Char → Option (List Char)
  | [], cs => some cs
  | p :: ps, c :: cs => if c = p then lit ps cs else none
  | _ :: _, [] => none

/-- A literal string. -/
def litS (s : String) (cs : List Char) : Option (List Char) := lit s.data cs

/-- `(?:kw\s+)?` for a keyword no alternative at the same position can
also start with (so regex backtracking never changes the outcome). -/
def optKw (kw : String) (cs : List Char) : List Char :=
  match (litS kw cs).bind ws1 with
  | some rest => rest
  | none => cs

/-- `(?:k₁|k₂|…)` over literal keywords none of which is a prefix of
another. -/
def kwAlt : List String → List Char → Option (List Char)
  | [], _ => none
  | k :: rest, cs =>
      match litS k cs with
      | some r => some r
      | none => kwAlt rest cs

/-- A group that can be absent: on failure the position is unchanged. -/
def tryP (p : List Char → Option (List Char)) (cs : List Char) : List Char :=
  (p cs).getD cs

/-- `\([^)]*\)`. -/
def parenGroup (cs : List Char) : Option (List Char) :=
  (litS "(" cs).bind fun cs => litS ")" (cs.dropWhile (fun c => !(c = ')')))

/-- `<[^>]*>`. -/
def angleGroup (cs : List Char) : Option (List Char) :=
  (litS "<" cs).bind fun cs => litS ">" (cs.dropWhile (fun c => !(c = '>')))

/-- `[class]+` (greedy, at least one character). -/
def charClass1 (p : Char → Bool) (cs : List Char) : Option (List Char) :=
  match cs with
  | c :: rest => if p c then some (rest.dropWhile p) else none
  | [] => none

/-- Capture `(\w+)` (greedy). -/
def word1 (cs : List Char) : Option (String × List Char) :=
  match cs with
  | c :: rest =>
      if isWordChar c then
        some (String.mk (c :: rest.takeWhile isWordChar), rest.dropWhile isWordChar)
      else none
  | [] => none

/-- Capture `([A-Z]\w*)`. -/
def capWord (cs : List Char) : Option (String × List Char) :=
  match cs with
  | c :: rest =>
      if c.isUpper then
        some (String.mk (c :: rest.takeWhile isWordChar), rest.dropWhile isWordChar)
      else none
  | [] => none

/-- Capture `(use[A-Z]\w*)`. -/
def useWord (cs : List Char) : Option (String × List Char) :=
  (litS "use" cs).bind fun cs' =>
    match cs' with
    | c :: rest =>
        if c.isUpper then
          some ("use" ++ String.mk (c :: rest.takeWhile isWordChar), rest.dropWhile isWordChar)
        else none
    | [] => none

/-- `r'^(import|export).*?(?:from\s+[quoted]|[quoted])?;?$'` of
`_extract_imports`.  Lines produced by `splitlines` contain no newline,
`.` therefore matches every remaining character, and all trailing groups
are optional, so the pattern accepts exactly the strings that start with
`import` or `export`. -/
def importLineMatch (s : String) : Bool :=
  pyStartsWith s "import" || pyStartsWith s "export"

/-- `r'^(?:export\s+)?(?:async\s+)?function\s+(\w+)\s*\([^)]*\)\s*\{'`. -/
def functionDeclMatch (s : String) : Option String := do
  let cs := optKw "export" s.data
  let cs := optKw "async" cs
  let cs ← litS "function" cs
  let cs ← ws1 cs
  let (name, cs) ← word1 cs
  let cs := dropWS cs
  let cs ← parenGroup cs
  let cs := dropWS cs
  let _ ← litS "\x7b" cs
  pure name

/-- `r'^(?:export\s+)?(?:const|let|var)\s+(\w+)\s*=\s*(?:async\s+)?\([^)]*\)\s*=>\s*\{'`. -/
def arrowFnMatch (s : String) : Option String := do
  let cs := optKw "export" s.data
  let cs ← kwAlt ["const", "let", "var"] cs
  let cs ← ws1 cs
  let (name, cs) ← word1 cs
  let cs := dropWS cs
  let cs ← litS "=" cs
  let cs := dropWS cs
  let cs := optKw "async" cs
  let cs ← parenGroup cs
  let cs := dropWS cs
  let cs ← litS "=>" cs
  let cs := dropWS cs
  let _ ← litS "\x7b" cs
  pure name

/-- `[\w,\s]` (the identifier-list class of `extends`/`implements`). -/
def identListChar (c : Char) : Bool := isWordChar c || c = ',' || isSpaceChar c

/-- `r'^(?:export\s+)?(?:abstract\s+)?class\s+(\w+)(?:\s+extends\s+\w+)?(?:\s+implements\s+[\w,\s]+)?\s*\{'`.
`\s+implements\s+[\w,\s]+` accepts one whitespace, `implements`, then at
least one `[\w,\s]` character (whitespace belongs to the class, so the
greedy `\s+`s collapse to this). -/
def classDeclMatch (s : String) : Option String := do
  let cs := optKw "export" s.data
  let cs := optKw "abstract" cs
  let cs ← litS "class" cs
  let cs ← ws1 cs
  let (name, cs) ← word1 cs
  let cs := tryP (fun cs => do
      let cs ← ws1 cs
      let cs ← litS "extends" cs
      let cs ← ws1 cs
      let (_, cs) ← word1 cs
      pure cs) cs
  let cs := tryP (fun cs => do
      let cs ← sp1 cs
      let cs ← litS "implements" cs
      let cs ← sp1 cs
      charClass1 identListChar cs) cs
  let cs := dropWS cs
  let _ ← litS "\x7b" cs
  pure name

/-- `r'^(?:export\s+)?(?:const|function)\s+([A-Z]\w*)\s*(?:\([^)]*\))?\s*(?::\s*React\.FC)?(?:<[^>]*>)?\s*[=\{]'`. -/
def componentMatch1 (s : String) : Option String := do
  let cs := optKw "export" s.data
  let cs ← kwAlt ["const", "function"] cs
  let cs ← ws1 cs
  let (name, cs) ← capWord cs
  let cs := dropWS cs
  let cs := tryP parenGroup cs
  let cs := dropWS cs
  let cs := tryP (fun cs => (litS ":" cs).bind fun cs => litS "React.FC" (dropWS cs)) cs
  let cs := tryP angleGroup cs
  let cs := dropWS cs
  match cs with
  | c :: _ => if c = '=' || c = '\x7b' then some name else none
  | [] => none

/-- `r'^(?:export\s+)?(?:const|let)\s+([A-Z]\w*)\s*:\s*React\.FC(?:<[^>]*>)?\s*='`. -/
def componentMatch2 (s : String) : Option String := do
  let cs := optKw "export" s.data
  let cs ← kwAlt ["const", "let"] cs
  let cs ← ws1 cs
  let (name, cs) ← capWord cs
  let cs := dropWS cs
  let cs ← litS ":" cs
  let cs := dropWS cs
  let cs ← litS "React.FC" cs
  let cs := tryP angleGroup cs
  let cs := dropWS cs
  let _ ← litS "=" cs
  pure name

/-- `r'^(?:export\s+)?(?:const|function)\s+(use[A-Z]\w*)\s*[=\(]'`. -/
def hookMatch (s : String) : Option String := do
  let cs := optKw "export" s.data
  let cs ← kwAlt ["const", "function"] cs
  let cs ← ws1 cs
  let (name, cs) ← useWord cs
  let cs := dropWS cs
  match cs with
  | c :: _ => if c = '=' || c = '(' then some name else none
  | [] => none

/-- `r'^(?:export\s+)?interface\s+(\w+)(?:\s+extends\s+[\w,\s]+)?\s*\{'`. -/
def interfaceDeclMatch (s : String) : Option String := do
  let cs := optKw "export" s.data
  let cs ← litS "interface" cs
  let cs ← ws1 cs
  let (name, cs) ← word1 cs
  let cs := tryP (fun cs => do
      let cs ← sp1 cs
      let cs ← litS "extends" cs
      let cs ← sp1 cs
      charClass1 identListChar cs) cs
  let cs := dropWS cs
  let _ ← litS "\x7b" cs
  pure name

/-- `r'^(?:export\s+)?type\s+(\w+)(?:<[^>]*>)?\s*='`. -/
def typeDeclMatch (s : String) : Option String := do
  let cs := optKw "export" s.data
  let cs ← litS "type" cs
  let cs ← ws1 cs
  let (name, cs) ← word1 cs
  let cs := tryP angleGroup cs
  let cs := dropWS cs
  let _ ← litS "=" cs
  pure name

/-- The pattern set of `JavaScriptChunker`, one matcher per regex; the
universal theorems hold for every pattern set, the concrete evaluations
use `jsDefaultPatterns`. -/
structure JsPatterns where
  importLine : String → Bool
  functionDecl : String → Option String
  arrowFn : String → Option String
  classDecl : String → Option String
  component1 : String → Option String
  component2 : String → Option String
  hook : String → Option String
  interfaceDecl : String → Option String
  typeDecl : String → Option String

/-- The regexes as written in `file_chunker.py`. -/
def jsDefaultPatterns : JsPatterns :=
  { importLine := importLineMatch
    functionDecl := functionDeclMatch
    arrowFn := arrowFnMatch
    classDecl := classDeclMatch
    component1 := componentMatch1
    component2 := componentMatch2
    hook := hookMatch
    interfaceDecl := interfaceDeclMatch
    typeDecl := typeDeclMatch }

end JsPatternDefs

namespace JavaScriptChunker

/-- `JavaScriptChunker._create_fallback_chunk`. -/
def _create_fallback_chunk (read : ReadResult) (stem filePath : String) : CodeChunk :=
  match read with
  | .content s =>
      { name := stem
        chunk_type := ChunkType.VARIABLE
        content := s
        start_line := 1
        end_line := (pySplitlines s).length
        file_path := filePath }
  | .unreadable =>
      { name := stem
        chunk_type := ChunkType.VARIABLE
        content := "// Unable to read file"
        start_line := 1
        end_line := 1
        file_path := filePath }

/-- The chunk list built by `parse_file` after a successful read:
the import chunk (if any), then the extraction passes in source order
(functions: declaration then arrow pattern; classes; components:
both patterns; hooks; interfaces then types). -/
def chunksCore (P : JsPatterns) (lines : List String) (filePath : String) :
    List CodeChunk :=
  (match _extract_imports P.importLine lines filePath with
   | some c => [c]
   | none => []) ++
  _extract_by_pattern lines filePath P.functionDecl ChunkType.FUNCTION ++
  _extract_by_pattern lines filePath P.arrowFn ChunkType.FUNCTION ++
  _extract_by_pattern lines filePath P.classDecl ChunkType.CLASS ++
  _extract_by_pattern lines filePath P.component1 ChunkType.COMPONENT ++
  _extract_by_pattern lines filePath P.component2 ChunkType.COMPONENT ++
  _extract_by_pattern lines filePath P.hook ChunkType.HOOK ++
  _extract_by_pattern lines filePath P.interfaceDecl ChunkType.INTERFACE ++
  _extract_by_pattern lines filePath P.typeDecl ChunkType.TYPE

/-- `JavaScriptChunker.parse_file`: `return chunks if chunks else
[self._create_fallback_chunk(file_path)]`, with any read failure also
answered by the fallback chunk. -/
def parse_file (P : JsPatterns) (read : ReadResult) (stem filePath : String) :
    List CodeChunk :=
  match read with
  | .unreadable => [_create_fallback_chunk .unreadable stem filePath]
  | .content s =>
      let chunks := chunksCore P (pySplitlines s) filePath
      if chunks.isEmpty then [_create_fallback_chunk (.content s) stem filePath]
      else chunks

end JavaScriptChunker

section SmartFileChunkerDefs

/-- Python `f.readlines()` on a text-mode stream (universal-newline
translation has already replaced `\r\n`/`\r` by `\n` in `s`): split after
every `'\n'`, keeping the line ends, with a last unterminated line kept
if non-empty. -/
def pyReadLinesAux : List Char → List Char → List String
  | [], acc => if acc.isEmpty then [] else [String.mk acc.reverse]
  | c :: rest, acc =>
      if c = '\n' then String.mk (c :: acc).reverse :: pyReadLinesAux rest []
      else pyReadLinesAux rest (c :: acc)

/-- Python `f.readlines()`. -/
def pyReadLines (s : String) : List String := pyReadLinesAux s.data []

/-- `range(0, len(lines), max_lines)` (the chunk start offsets), for a
positive step; the fuel equals `len` because each step advances by at
least one. -/
def rangeStepAux : Nat → Nat → Nat → Nat → List Nat
  | 0, _, _, _ => []
  | fuel + 1, start, len, step =>
      if start < len then start :: rangeStepAux fuel (start + step) len step
      else []

/-- `range(0, len, step)`. -/
def rangeStep (len step : Nat) : List Nat := rangeStepAux len 0 len step

namespace SmartFileChunker

/-- `SmartFileChunker._chunk_by_lines`.  A non-positive `max_lines` makes
Python's `range` raise `ValueError` inside the `try`, which the
`except` answers with the same fallback chunk as an unreadable file. -/
def _chunk_by_lines (read : ReadResult) (maxLines : Nat) (stem filePath : String) :
    List CodeChunk :=
  match read with
  | .unreadable =>
      [{ name := stem
         chunk_type := ChunkType.VARIABLE
         content := "# Unable to read file"
         start_line := 1
         end_line := 1
         file_path := filePath }]
  | .content s =>
      if maxLines = 0 then
        [{ name := stem
           chunk_type := ChunkType.VARIABLE
           content := "# Unable to read file"
           start_line := 1
           end_line := 1
           file_path := filePath }]
      else
        let lines := pyReadLines s
        (rangeStep lines.length maxLines).map fun i =>
          { name := stem ++ "_chunk_" ++ toString (i / maxLines + 1)
            chunk_type := ChunkType.VARIABLE
            content := String.join ((lines.drop i).take maxLines)
            start_line := i + 1
            end_line := Nat.min (i + maxLines) lines.length
            file_path := filePath }

end SmartFileChunker

end SmartFileChunkerDefs

section FileFilterDefs

/-- Mirrors `FileType` of `file_filter.py`. -/
inductive FileType where
  | SOURCE_CODE
  | CONFIG
  | DOCUMENTATION
  | TEST
  | BUILD
  | DEPENDENCY
  | BINARY
  | UNKNOWN
deriving DecidableEq, Repr

/-- Mirrors the `FileInfo` dataclass of `file_filter.py`. -/
structure FileInfo where
  path : String
  relative_path : String
  size_bytes : Nat
  file_type : FileType
  is_text : Bool
  last_modified : Int
deriving DecidableEq, Repr

namespace FileTypeDetector

/-- `FileTypeDetector.TYPE_MAPPINGS` in dict insertion order (the per-type
extension sets are Python `set`s, but every use is order-independent
membership, so lists are a faithful embedding). -/
def TYPE_MAPPINGS : List (FileType × List String) :=
  [(FileType.SOURCE_CODE,
    [".py", ".js", ".ts", ".tsx", ".jsx", ".java", ".cpp", ".c", ".h",
     ".cs", ".php", ".rb", ".go", ".rs", ".swift", ".kt", ".scala",
     ".clj", ".hs", ".ml", ".r", ".m", ".mm", ".dart", ".vue", ".svelte"]),
   (FileType.CONFIG,
    [".json", ".yaml", ".yml", ".toml", ".ini", ".cfg", ".conf",
     ".env", ".properties", ".xml", ".plist", ".config"]),
   (FileType.DOCUMENTATION,
    [".md", ".rst", ".txt", ".adoc", ".org", ".tex"]),
   (FileType.TEST,
    [".test.js", ".test.ts", ".spec.js", ".spec.ts",
     "_test.py", "test_*.py"]),
   (FileType.BUILD,
    [".dockerfile", ".dockerignore", ".makefile"]),
   (FileType.BINARY,
    [".exe", ".dll", ".so", ".dylib", ".a", ".lib", ".bin",
     ".img", ".iso", ".dmg", ".pkg", ".deb", ".rpm",
     ".zip", ".tar", ".gz", ".bz2", ".xz", ".7z", ".rar",
     ".pdf", ".doc", ".docx", ".xls", ".xlsx", ".ppt", ".pptx",
     ".jpg", ".jpeg", ".png", ".gif", ".bmp", ".tiff", ".svg",
     ".mp3", ".mp4", ".avi", ".mov", ".wmv", ".flv",
     ".ttf", ".otf", ".woff", ".woff2", ".eot"])]

/-- `FileTypeDetector.SPECIAL_FILES` in dict insertion order. -/
def SPECIAL_FILES : List (FileType × List String) :=
  [(FileType.CONFIG,
    ["package.json", "package-lock.json", "yarn.lock", "pnpm-lock.yaml",
     "requirements.txt", "pyproject.toml", "setup.py", "setup.cfg",
     "cargo.toml", "cargo.lock", "go.mod", "go.sum",
     "gemfile", "gemfile.lock", "composer.json", "composer.lock",
     "dockerfile", "docker-compose.yml", "docker-compose.yaml",
     "makefile", ".gitignore", ".gitattributes", ".editorconfig",
     "tsconfig.json", "jsconfig.json", ".eslintrc", ".prettierrc",
     "webpack.config.js", "vite.config.js", "rollup.config.js"]),
   (FileType.DOCUMENTATION,
    ["readme.md", "readme.txt", "readme.rst", "readme",
     "changelog.md", "changelog.txt", "changelog",
     "license", "license.md", "license.txt",
     "contributing.md", "code_of_conduct.md"])]

/-- The index of the last `'.'` in a character list. -/
def lastDotIdxAux : List Char → Nat → Option Nat → Option Nat
  | [], _, best => best
  | c :: rest, i, best =>
      lastDotIdxAux rest (i + 1) (if c = '.' then some i else best)

/-- `pathlib.PurePath.suffix` of a file name: the part from the last dot,
provided that dot is neither the first nor the last character. -/
def pathSuffix (name : String) : String :=
  let cs := name.data
  match lastDotIdxAux cs 0 none with
  | some i => if 0 < i ∧ i < cs.length - 1 then String.mk (cs.drop i) else ""
  | none => ""

/-- The special-filename lookup (first loop of `detect_file_type`). -/
def specialLookup (filename : String) : Option FileType :=
  (SPECIAL_FILES.find? fun p => p.2.contains filename).map (·.1)

/-- The extension-table lookup (last loop of `detect_file_type`): the two
`if`s of one iteration are combined into one disjunction per entry.
Every extension in the tables contains a dot, so the `'.' in ext` guard
of the compound-extension check is kept as written. -/
def extensionTableLookup (filename extension : String) : Option FileType :=
  (TYPE_MAPPINGS.find? fun p =>
      p.2.contains extension ||
      p.2.any fun ext => pyContains ext "." && pyEndsWith filename ext).map (·.1)

/-- `FileTypeDetector.detect_file_type`, over the file's base name
(`path.name`): special filenames first, then the test-name heuristic,
then the extension tables, defaulting to UNKNOWN. -/
def detect_file_type (name : String) : FileType :=
  let filename := pyLower name
  let extension := pyLower (pathSuffix name)
  match specialLookup filename with
  | some t => t
  | none =>
      if (["test", "spec", "__test__"].any fun pat => pyContains filename pat) &&
         ([".py", ".js", ".ts", ".jsx", ".tsx"].contains extension) then
        FileType.TEST
      else
        match extensionTableLookup filename extension with
        | some t => t
        | none => FileType.UNKNOWN

end FileTypeDetector

namespace SmartFileFilter

/-- `SmartFileFilter.should_include_file`.  Inputs are the values the
method observes for the path under test: the `get_file_info` result, the
size limit, the `gitignore_filter and gitignore_filter.should_ignore(...)`
result (`none` when no gitignore filter was constructed) and the
`_matches_ignore_pattern` result. -/
def should_include_file (file_info : Option FileInfo) (max_file_size_bytes : Nat)
    (gitignoreShouldIgnore : Option Bool) (matchesIgnorePattern : Bool) :
    Bool × String :=
  match file_info with
  | none => (false, "file_not_accessible")
  | some info =>
      if info.file_type = FileType.BINARY then (false, "binary_file")
      else if max_file_size_bytes < info.size_bytes then
        (false, "file_too_large_" ++ toString info.size_bytes ++ "_bytes")
      else if gitignoreShouldIgnore.getD false then (false, "gitignore_pattern")
      else if matchesIgnorePattern then (false, "ignore_pattern")
      else if !info.is_text then (false, "not_text_file")
      else (true, "")

end SmartFileFilter

end FileFilterDefs

section FileBrowserDefs

/-- Mirrors the `LineRange` dataclass of `file_browser.py` (`end` is a
reserved word, hence `end_`). -/
structure LineRange where
  start : Int
  end_ : Int
deriving DecidableEq, Repr

/-- `LineRange(start, end)`: the dataclass constructor together with its
`__post_init__` validation; `.error` is a raised `ValueError`. -/
def LineRange.make (start end_ : Int) : Except String LineRange :=
  if start < 1 then .error "Line numbers must start from 1"
  else if end_ < start then .error "End line must be >= start line"
  else .ok { start := start, end_ := end_ }

end FileBrowserDefs

section HelperLemmas

lemma pySplitlinesAux_acc_ne_nil :
    ∀ (cs : List Char) (flag : Bool) (acc : List Char), acc ≠ [] →
      pySplitlinesAux flag cs acc ≠ [] := by
  intro cs
  induction cs with
  | nil =>
      intro flag acc hacc
      simp [pySplitlinesAux, List.isEmpty_iff, hacc]
  | cons c rest ih =>
      intro flag acc hacc
      simp only [pySplitlinesAux]
      split
      · exact ih false acc hacc
      · split
        · simp
        · split
          · simp
          · exact ih false (c :: acc) (List.cons_ne_nil _ _)

lemma pySplitlines_eq_nil_imp {s : String} (h : pySplitlines s = []) : s = "" := by
  by_contra hne
  have hdata : ∃ c rest, s.data = c :: rest := by
    cases hd : s.data with
    | nil =>
        exact absurd (by cases s; simp_all [String.ext_iff]) hne
    | cons c rest => exact ⟨c, rest, rfl⟩
  obtain ⟨c, rest, hd⟩ := hdata
  unfold pySplitlines at h
  rw [hd] at h
  simp only [pySplitlinesAux] at h
  split_ifs at h
  all_goals
    first
      | exact List.cons_ne_nil _ _ h
      | exact pySplitlinesAux_acc_ne_nil rest false [c] (List.cons_ne_nil _ _) h
      | simp_all

lemma foldl_min_le (l : List Nat) : ∀ (i : Nat), l.foldl Nat.min i ≤ i := by
  induction l with
  | nil => simp
  | cons a t ih =>
      intro i
      calc (a :: t).foldl Nat.min i = t.foldl Nat.min (Nat.min i a) := rfl
        _ ≤ Nat.min i a := ih _
        _ ≤ i := Nat.min_le_left _ _

lemma le_foldl_max (l : List Nat) : ∀ (i : Nat), i ≤ l.foldl Nat.max i := by
  induction l with
  | nil => simp
  | cons a t ih =>
      intro i
      calc i ≤ Nat.max i a := Nat.le_max_left _ _
        _ ≤ t.foldl Nat.max (Nat.max i a) := ih _
        _ = (a :: t).foldl Nat.max i := rfl

lemma importsChunkOf_props {lines : List String} {filePath : String}
    {idxs : List Nat} {c : CodeChunk} (h : importsChunkOf lines filePath idxs = some c) :
    1 ≤ c.start_line ∧ c.start_line ≤ c.end_line ∧
    c.content = String.intercalate "\n" (slice1 lines c.start_line c.end_line) := by
  match idxs, h with
  | i₀ :: rest, h =>
      simp only [importsChunkOf, Option.some.injEq] at h
      subst h
      refine ⟨by simp, ?_, ?_⟩
      · have h₁ := foldl_min_le rest i₀
        have h₂ := le_foldl_max rest i₀
        simpa using Nat.le_trans h₁ h₂
      · simp only [slice1, Nat.add_sub_cancel, Nat.succ_sub_succ_eq_sub, Nat.sub_zero]

lemma fbeGo_le {lines : List String} :
    ∀ (rem : List String) (i : Nat) (b : Int) (s : Option Char),
      rem = lines.drop i → fbeGo lines rem i b s ≤ lines.length := by
  intro rem
  induction rem with
  | nil => intro i b s _; simp [fbeGo]
  | cons l rest ih =>
      intro i b s hrem
      have hi : i < lines.length := by
        by_contra hle
        push_neg at hle
        rw [List.drop_eq_nil_of_le hle] at hrem
        exact List.cons_ne_nil _ _ hrem
      have hrest : rest = lines.drop (i + 1) := by
        have h1 : (l :: rest).tail = (lines.drop i).tail := by rw [hrem]
        simpa [List.tail_drop] using h1
      rw [fbeGo]
      cases lineScan l.data none b s with
      | closed => dsimp only; omega
      | cont b' s' => dsimp only; exact ih (i + 1) b' s' hrest

lemma fbeGo_ge {lines : List String} {k : Nat} (hk : k < lines.length) :
    ∀ (rem : List String) (i : Nat) (b : Int) (s : Option Char),
      k ≤ i → k + 1 ≤ fbeGo lines rem i b s := by
  intro rem
  induction rem with
  | nil => intro i b s _; simpa [fbeGo] using hk
  | cons l rest ih =>
      intro i b s hki
      rw [fbeGo]
      cases lineScan l.data none b s with
      | closed => dsimp only; omega
      | cont b' s' => dsimp only; exact ih (i + 1) b' s' (by omega)

lemma find_block_end_bounds {lines : List String} {i : Nat} (hi : i < lines.length) :
    i + 1 ≤ JavaScriptChunker._find_block_end lines i ∧
    JavaScriptChunker._find_block_end lines i ≤ lines.length := by
  unfold JavaScriptChunker._find_block_end
  exact ⟨fbeGo_ge hi _ i 0 none (Nat.le_refl i), fbeGo_le _ i 0 none rfl⟩

lemma ebpAux_props {lines : List String} {filePath : String}
    {matcher : String → Option String} {ctype : ChunkType} :
    ∀ (rem : List String) (i : Nat), rem = lines.drop i →
      ∀ c ∈ JavaScriptChunker.ebpAux lines filePath matcher ctype rem i,
        1 ≤ c.start_line ∧ c.start_line ≤ c.end_line ∧
        c.content = String.intercalate "\n" (slice1 lines c.start_line c.end_line) := by
  intro rem
  induction rem with
  | nil =>
      intro i _ c hc
      simp [JavaScriptChunker.ebpAux] at hc
  | cons line rest ih =>
      intro i hrem c hc
      have hi : i < lines.length := by
        by_contra hle
        push_neg at hle
        rw [List.drop_eq_nil_of_le hle] at hrem
        exact List.cons_ne_nil _ _ hrem
      have hrest : rest = lines.drop (i + 1) := by
        have h1 : (line :: rest).tail = (lines.drop i).tail := by rw [hrem]
        simpa [List.tail_drop] using h1
      simp only [JavaScriptChunker.ebpAux, List.mem_append] at hc
      rcases hc with hc | hc
      · rcases hm : matcher (pyStrip line) with _ | name <;> rw [hm] at hc
        · simp at hc
        · simp only [List.mem_singleton] at hc
          subst hc
          obtain ⟨hge, hle⟩ := find_block_end_bounds hi
          unfold JavaScriptChunker.mkPatternChunk
          refine ⟨by simp, by simpa using hge, ?_⟩
          simp only [slice1, Nat.add_sub_cancel, Nat.succ_sub_succ_eq_sub, Nat.sub_zero]
      · exact ih (i + 1) hrest c hc

lemma extract_by_pattern_props {lines : List String} {filePath : String}
    {matcher : String → Option String} {ctype : ChunkType} :
    ∀ c ∈ JavaScriptChunker._extract_by_pattern lines filePath matcher ctype,
      1 ≤ c.start_line ∧ c.start_line ≤ c.end_line ∧
      c.content = String.intercalate "\n" (slice1 lines c.start_line c.end_line) :=
  ebpAux_props lines 0 (by simp)

lemma chunksCore_props {P : JsPatterns} {lines : List String} {filePath : String} :
    ∀ c ∈ JavaScriptChunker.chunksCore P lines filePath,
      1 ≤ c.start_line ∧ c.start_line ≤ c.end_line ∧
      c.content = String.intercalate "\n" (slice1 lines c.start_line c.end_line) := by
  intro c hc
  unfold JavaScriptChunker.chunksCore at hc
  rcases List.mem_append.mp hc with hc | h
  swap
  · exact extract_by_pattern_props c h
  rcases List.mem_append.mp hc with hc | h
  swap
  · exact extract_by_pattern_props c h
  rcases List.mem_append.mp hc with hc | h
  swap
  · exact extract_by_pattern_props c h
  rcases List.mem_append.mp hc with hc | h
  swap
  · exact extract_by_pattern_props c h
  rcases List.mem_append.mp hc with hc | h
  swap
  · exact extract_by_pattern_props c h
  rcases List.mem_append.mp hc with hc | h
  swap
  · exact extract_by_pattern_props c h
  rcases List.mem_append.mp hc with hc | h
  swap
  · exact extract_by_pattern_props c h
  rcases List.mem_append.mp hc with hc | h
  swap
  · exact extract_by_pattern_props c h
  cases him : JavaScriptChunker._extract_imports P.importLine lines filePath with
  | none => rw [him] at hc; simp at hc
  | some ic =>
      rw [him] at hc
      simp only [List.mem_singleton] at hc
      subst hc
      exact importsChunkOf_props (by simpa [JavaScriptChunker._extract_imports] using him)

lemma sizeListP_append : ∀ (a b : List PyStmt), sizeListP (a ++ b) = sizeListP a + sizeListP b := by
  intro a b
  induction a with
  | nil => simp [sizeListP]
  | cons x xs ih =>
      show PyStmt.size x + sizeListP (xs ++ b) = PyStmt.size x + sizeListP xs + sizeListP b
      rw [ih]; omega

lemma size_eq_children (s : PyStmt) : s.size = 1 + sizeListP s.children := by
  cases s <;> simp [PyStmt.size, PyStmt.children, sizeListP]

lemma size_pos (s : PyStmt) : 1 ≤ s.size := by
  rw [size_eq_children]; omega

lemma walkBFSAux_mono : ∀ (f₁ : Nat) (q : List PyStmt) (f₂ : Nat),
    sizeListP q ≤ f₁ → sizeListP q ≤ f₂ → walkBFSAux f₁ q = walkBFSAux f₂ q := by
  intro f₁
  induction f₁ with
  | zero =>
      intro q f₂ h₁ _
      cases q with
      | nil => cases f₂ <;> rfl
      | cons n rest =>
          exfalso
          have := size_pos n
          simp only [sizeListP] at h₁
          omega
  | succ f ih =>
      intro q f₂ h₁ h₂
      cases q with
      | nil => cases f₂ <;> rfl
      | cons n rest =>
          cases f₂ with
          | zero =>
              exfalso
              have := size_pos n
              simp only [sizeListP] at h₂
              omega
          | succ g =>
              show n :: walkBFSAux f (rest ++ n.children) = n :: walkBFSAux g (rest ++ n.children)
              congr 1
              apply ih
              · have hs := size_eq_children n
                have ha := sizeListP_append rest n.children
                simp only [sizeListP] at h₁
                omega
              · have hs := size_eq_children n
                have ha := sizeListP_append rest n.children
                simp only [sizeListP] at h₂
                omega

lemma walkBFS_cons (n : PyStmt) (rest : List PyStmt) :
    walkBFS (n :: rest) = n :: walkBFS (rest ++ n.children) := by
  unfold walkBFS
  have h1 : sizeListP (n :: rest) = sizeListP (rest ++ n.children) + 1 := by
    have hs := size_eq_children n
    have ha := sizeListP_append rest n.children
    simp only [sizeListP]
    omega
  rw [h1]
  rfl

lemma mem_walkBFSAux_of_mem_queue : ∀ (fuel : Nat) (q : List PyStmt),
    sizeListP q ≤ fuel → ∀ y ∈ q, y ∈ walkBFSAux fuel q := by
  intro fuel
  induction fuel with
  | zero =>
      intro q h y hy
      cases q with
      | nil => simp at hy
      | cons n rest =>
          exfalso
          have := size_pos n
          simp only [sizeListP] at h
          omega
  | succ f ih =>
      intro q h y hy
      cases q with
      | nil => simp at hy
      | cons n rest =>
          show y ∈ n :: walkBFSAux f (rest ++ n.children)
          rcases List.mem_cons.mp hy with rfl | hy
          · exact List.mem_cons_self _ _
          · refine List.mem_cons_of_mem _ (ih (rest ++ n.children) ?_ y ?_)
            · have hs := size_eq_children n
              have ha := sizeListP_append rest n.children
              simp only [sizeListP] at h
              omega
            · exact List.mem_append_left _ hy

lemma children_mem_walkBFSAux : ∀ (fuel : Nat) (q : List PyStmt),
    sizeListP q ≤ fuel → ∀ n ∈ walkBFSAux fuel q, ∀ m ∈ n.children, m ∈ walkBFSAux fuel q := by
  intro fuel
  induction fuel with
  | zero => intro q _ n hn; cases q <;> simp_all [walkBFSAux]
  | succ f ih =>
      intro q h n hn m hm
      cases q with
      | nil => simp [walkBFSAux] at hn
      | cons x rest =>
          have hq : sizeListP (rest ++ x.children) ≤ f := by
            have hs := size_eq_children x
            have ha := sizeListP_append rest x.children
            simp only [sizeListP] at h
            omega
          rcases List.mem_cons.mp hn with rfl | hn
          · exact List.mem_cons_of_mem _
              (mem_walkBFSAux_of_mem_queue f _ hq m (List.mem_append_right _ hm))
          · exact List.mem_cons_of_mem _ (ih _ hq n hn m hm)

lemma walkBFS_children_closed {q : List PyStmt} {n m : PyStmt}
    (hn : n ∈ walkBFS q) (hm : m ∈ n.children) : m ∈ walkBFS q :=
  children_mem_walkBFSAux (sizeListP q) q (Nat.le_refl _) n hn m hm

lemma extract_function_props {nm : String} {args : List String} {l e : Nat}
    {body : List PyStmt} {lines : List String} {filePath : String}
    {parent : Option String} (hl : 1 ≤ l) (hle : l ≤ e) :
    1 ≤ (PythonChunker._extract_function nm args l e body lines filePath parent).start_line ∧
    (PythonChunker._extract_function nm args l e body lines filePath parent).start_line ≤
      (PythonChunker._extract_function nm args l e body lines filePath parent).end_line ∧
    (PythonChunker._extract_function nm args l e body lines filePath parent).content =
      String.intercalate "\n" (slice1 lines
        (PythonChunker._extract_function nm args l e body lines filePath parent).start_line
        (PythonChunker._extract_function nm args l e body lines filePath parent).end_line) := by
  have he : ¬ (e = 0) := by omega
  simp only [PythonChunker._extract_function, PythonChunker._get_node_content, if_neg he]
  refine ⟨hl, hle, ?_⟩
  simp only [slice1]
  have harith : e - (l - 1) = e + 1 - l := by omega
  rw [harith]

lemma extract_class_props {nm : String} {l e : Nat} {body : List PyStmt}
    {lines : List String} {filePath : String}
    (hl : 1 ≤ l) (hle : l ≤ e)
    (hbody : ∀ item ∈ body, 1 ≤ item.lineno ∧ item.lineno ≤ item.endLineno) :
    ∀ c ∈ PythonChunker._extract_class nm l e body lines filePath,
      1 ≤ c.start_line ∧ c.start_line ≤ c.end_line ∧
      c.content = String.intercalate "\n" (slice1 lines c.start_line c.end_line) := by
  intro c hc
  rcases List.mem_cons.mp hc with rfl | hc
  · have he : ¬ (e = 0) := by omega
    simp only [PythonChunker._extract_class, PythonChunker._get_node_content, if_neg he]
    refine ⟨hl, hle, ?_⟩
    simp only [slice1]
    have harith : e - (l - 1) = e + 1 - l := by omega
    rw [harith]
  · rcases List.mem_filterMap.mp hc with ⟨item, hitem, hmk⟩
    have hwfi := hbody item hitem
    cases item with
    | funcDef nm2 args2 fl fe fb =>
        simp only [Option.some.injEq] at hmk
        subst hmk
        exact extract_function_props hwfi.1 hwfi.2
    | importStmt l2 e2 => simp at hmk
    | classDef nm2 l2 e2 b2 => simp at hmk
    | exprStr s2 l2 e2 => simp at hmk
    | other l2 e2 b2 => simp at hmk

lemma pythonChunks_props {body : List PyStmt} {lines : List String} {filePath : String}
    (hwf : ∀ n ∈ walkBFS body, wfNode lines.length n) :
    ∀ c ∈ pythonChunks body lines filePath,
      1 ≤ c.start_line ∧ c.start_line ≤ c.end_line ∧
      c.content = String.intercalate "\n" (slice1 lines c.start_line c.end_line) := by
  intro c hc
  unfold pythonChunks at hc
  rcases List.mem_append.mp hc with h | h
  · cases him : importsChunkOf lines filePath (pythonImportIdxs (walkBFS body)) with
    | none => rw [him] at h; simp at h
    | some ic =>
        rw [him] at h
        simp only [List.mem_singleton] at h
        subst h
        exact importsChunkOf_props him
  · rcases List.mem_flatMap.mp h with ⟨n, hn, hcn⟩
    have hwfn := hwf n hn
    cases n with
    | classDef nm l e b =>
        refine extract_class_props ?_ ?_ ?_ c hcn
        · exact hwfn.1
        · exact hwfn.2.1
        · intro item hitem
          have hmem : item ∈ walkBFS body :=
            walkBFS_children_closed hn (by simpa [PyStmt.children] using hitem)
          exact ⟨(hwf item hmem).1, (hwf item hmem).2.1⟩
    | funcDef nm args l e b =>
        have hcn' : c ∈ (if inClassBody body (PyStmt.funcDef nm args l e b) = true
            then ([] : List CodeChunk)
            else [PythonChunker._extract_function nm args l e b lines filePath none]) := hcn
        by_cases hcls : inClassBody body (PyStmt.funcDef nm args l e b) = true
        · rw [if_pos hcls] at hcn'
          simp at hcn'
        · rw [if_neg hcls] at hcn'
          simp only [List.mem_singleton] at hcn'
          subst hcn'
          exact extract_function_props hwfn.1 hwfn.2.1
    | importStmt l e => simp at hcn
    | exprStr s l e => simp at hcn
    | other l e b => simp at hcn

lemma rangeStepAux_mem : ∀ (fuel start len step : Nat),
    ∀ i ∈ rangeStepAux fuel start len step, start ≤ i ∧ i < len := by
  intro fuel
  induction fuel with
  | zero => intro start len step i hi; simp [rangeStepAux] at hi
  | succ f ih =>
      intro start len step i hi
      simp only [rangeStepAux] at hi
      split at hi
      · rcases List.mem_cons.mp hi with rfl | hi
        · omega
        · have := ih (start + step) len step i hi
          omega
      · simp at hi

end HelperLemmas

section ClaimTheorems

/-- Claim C2: a chunker's parse operation never raises (the embedding is
total); on parse failure — a syntax error on a readable file, or an
unreadable file — it returns exactly one fallback chunk named after the
file stem with kind VARIABLE, whose content is the whole file text when
the file is readable and an explanatory placeholder comment otherwise. -/
theorem parse_failure_fallback :
    ∀ (parse : String → Option (List PyStmt)) (stem filePath s : String) (P : JsPatterns),
      PythonChunker.parse_file ReadResult.unreadable parse stem filePath =
        [{ name := stem, chunk_type := ChunkType.VARIABLE, content := "# Unable to read file",
           start_line := 1, end_line := 1, file_path := filePath }] ∧
      (parse s = none →
        PythonChunker.parse_file (ReadResult.content s) parse stem filePath =
          [{ name := stem, chunk_type := ChunkType.VARIABLE, content := s,
             start_line := 1, end_line := (pySplitlines s).length, file_path := filePath }]) ∧
      JavaScriptChunker.parse_file P ReadResult.unreadable stem filePath =
        [{ name := stem, chunk_type := ChunkType.VARIABLE, content := "// Unable to read file",
           start_line := 1, end_line := 1, file_path := filePath }] := by
  intro parse stem filePath s P
  refine ⟨rfl, ?_, rfl⟩
  intro hp
  simp only [PythonChunker.parse_file, hp, PythonChunker._create_fallback_chunk]

/-- Witness for C2: a readable file whose text is a Python syntax error
(`ast.parse "def f(" raises`) yields the single whole-text fallback chunk. -/
theorem parse_failure_fallback_witness :
    PythonChunker.parse_file (ReadResult.content "def f(") (fun _ => none) "m" "m.py" =
      [{ name := "m", chunk_type := ChunkType.VARIABLE, content := "def f(",
         start_line := 1, end_line := 1, file_path := "m.py" }] :=
  (parse_failure_fallback (fun _ => none) "m" "m.py" "def f(" jsDefaultPatterns).2.1 rfl

/-- Claim C5 (code bug): the comment in `parse_file` says "Only top-level
functions (not methods)", but the `ast.walk` loop guarded only by the
class-body test also emits a separate FUNCTION chunk for a function
nested inside another function.  On the file
`def outer():\n    def inner():\n        pass` the inner function gets
its own chunk. -/
theorem nested_function_extracted_bug :
    ∃ c ∈ pythonChunks
        [PyStmt.funcDef "outer" [] 1 3 [PyStmt.funcDef "inner" [] 2 3 [PyStmt.other 3 3 []]]]
        ["def outer():", "    def inner():", "        pass"] "nested.py",
      c.name = "inner" ∧ c.chunk_type = ChunkType.FUNCTION ∧ c.start_line = 2 := by
  decide

/-- Claim C6: the block-end scanner does not count brace characters
inside string literals: with a closing (resp. opening) brace inside a
quoted string on the middle line, the block still closes exactly on the
real terminating brace on line 3, not earlier (resp. not later). -/
theorem find_block_end_string_brace :
    JavaScriptChunker._find_block_end
      ["const handler = () => \x7b", "  const s = \"\x7d\";", "\x7d"] 0 = 3 ∧
    JavaScriptChunker._find_block_end
      ["const handler = () => \x7b", "  const s = \"\x7b\";", "\x7d"] 0 = 3 := by
  exact ⟨rfl, rfl⟩

/-- Claim C7: `detect_file_type "requirements.txt"` is CONFIG: the
special-filename table (consulted first in `detect_file_type`) maps the
name to CONFIG, overriding the `.txt` extension's DOCUMENTATION entry in
the extension tables. -/
theorem detect_requirements_txt_config :
    FileTypeDetector.detect_file_type "requirements.txt" = FileType.CONFIG ∧
    FileTypeDetector.specialLookup (pyLower "requirements.txt") = some FileType.CONFIG ∧
    FileTypeDetector.extensionTableLookup (pyLower "requirements.txt")
      (pyLower (FileTypeDetector.pathSuffix "requirements.txt")) =
      some FileType.DOCUMENTATION := by
  exact ⟨rfl, rfl, rfl⟩

/-- Claim C8: `LineRange(start, end)` construction succeeds exactly when
`1 ≤ start ∧ start ≤ end` and raises otherwise; in particular
`LineRange(5, 3)` and `LineRange(0, 2)` both raise. -/
theorem line_range_validation :
    (∀ s e : Int, (∃ r, LineRange.make s e = Except.ok r) ↔ (1 ≤ s ∧ s ≤ e)) ∧
    LineRange.make 5 3 = Except.error "End line must be >= start line" ∧
    LineRange.make 0 2 = Except.error "Line numbers must start from 1" := by
  refine ⟨?_, rfl, rfl⟩
  intro s e
  constructor
  · rintro ⟨r, hr⟩
    unfold LineRange.make at hr
    split_ifs at hr
    omega
  · rintro ⟨h1, h2⟩
    refine ⟨{ start := s, end_ := e }, ?_⟩
    unfold LineRange.make
    rw [if_neg (by omega), if_neg (by omega)]

/-- Claim C10: the extraction passes do not deduplicate: on the file
`export const Foo = () => {…}` the arrow-function pattern and the
component pattern both match line 1, so `parse_file` returns two distinct
chunks with the same name, start line and content but different kinds
(FUNCTION and COMPONENT). -/
theorem duplicate_component_function_chunks :
    ∃ c₁ ∈ JavaScriptChunker.parse_file jsDefaultPatterns
        (ReadResult.content "export const Foo = () => \x7b\n  return null;\n\x7d") "App" "App.tsx",
      ∃ c₂ ∈ JavaScriptChunker.parse_file jsDefaultPatterns
        (ReadResult.content "export const Foo = () => \x7b\n  return null;\n\x7d") "App" "App.tsx",
        c₁ ≠ c₂ ∧ c₁.name = c₂.name ∧ c₁.start_line = c₂.start_line ∧
        c₁.content = c₂.content ∧ c₁.chunk_type = ChunkType.FUNCTION ∧
        c₂.chunk_type = ChunkType.COMPONENT := by
  decide

/-- Claim C1 (amended): for every chunk produced by
`PythonChunker.parse_file`, `JavaScriptChunker.parse_file` or
`SmartFileChunker._chunk_by_lines`, fallback chunks included,
`1 ≤ start_line` always holds and `start_line ≤ end_line` holds except
for the whole-file fallback chunk of a readable file with empty content,
whose `end_line` is its line count `0 < 1 = start_line`.  The Python
conjunct assumes the CPython location guarantees for successfully parsed
trees. -/
theorem chunk_start_end_invariant_amended :
    (∀ (read : ReadResult) (parse : String → Option (List PyStmt)) (stem filePath : String),
      (∀ s body, read = ReadResult.content s → parse s = some body →
        ∀ n ∈ walkBFS body, wfNode (pySplitlines s).length n) →
      ∀ c ∈ PythonChunker.parse_file read parse stem filePath,
        1 ≤ c.start_line ∧
        (c.start_line ≤ c.end_line ∨ (c.end_line = 0 ∧ c.start_line = 1 ∧ c.content = ""))) ∧
    (∀ (P : JsPatterns) (read : ReadResult) (stem filePath : String),
      ∀ c ∈ JavaScriptChunker.parse_file P read stem filePath,
        1 ≤ c.start_line ∧
        (c.start_line ≤ c.end_line ∨ (c.end_line = 0 ∧ c.start_line = 1 ∧ c.content = ""))) ∧
    (∀ (read : ReadResult) (maxLines : Nat) (stem filePath : String),
      ∀ c ∈ SmartFileChunker._chunk_by_lines read maxLines stem filePath,
        1 ≤ c.start_line ∧ c.start_line ≤ c.end_line) := by
  refine ⟨?_, ?_, ?_⟩
  · intro read parse stem filePath hwf c hc
    cases read with
    | unreadable =>
        simp only [PythonChunker.parse_file, PythonChunker._create_fallback_chunk,
          List.mem_singleton] at hc
        subst hc
        exact ⟨Nat.le_refl 1, Or.inl (Nat.le_refl 1)⟩
    | content s =>
        cases hp : parse s with
        | some body =>
            have hc' : c ∈ pythonChunks body (pySplitlines s) filePath := by
              simpa [PythonChunker.parse_file, hp] using hc
            have h := pythonChunks_props (hwf s body rfl hp) c hc'
            exact ⟨h.1, Or.inl h.2.1⟩
        | none =>
            have hc' : c = PythonChunker._create_fallback_chunk (ReadResult.content s)
                stem filePath := by
              simpa [PythonChunker.parse_file, hp] using hc
            subst hc'
            refine ⟨Nat.le_refl 1, ?_⟩
            rcases Nat.eq_zero_or_pos (pySplitlines s).length with h0 | hpos
            · exact Or.inr ⟨h0, rfl, pySplitlines_eq_nil_imp (List.length_eq_zero.mp h0)⟩
            · exact Or.inl hpos
  · intro P read stem filePath c hc
    cases read with
    | unreadable =>
        simp only [JavaScriptChunker.parse_file, JavaScriptChunker._create_fallback_chunk,
          List.mem_singleton] at hc
        subst hc
        exact ⟨Nat.le_refl 1, Or.inl (Nat.le_refl 1)⟩
    | content s =>
        by_cases hemp : (JavaScriptChunker.chunksCore P (pySplitlines s) filePath).isEmpty = true
        · have hc' : c = JavaScriptChunker._create_fallback_chunk (ReadResult.content s)
              stem filePath := by
            simpa [JavaScriptChunker.parse_file, hemp] using hc
          subst hc'
          refine ⟨Nat.le_refl 1, ?_⟩
          rcases Nat.eq_zero_or_pos (pySplitlines s).length with h0 | hpos
          · exact Or.inr ⟨h0, rfl, pySplitlines_eq_nil_imp (List.length_eq_zero.mp h0)⟩
          · exact Or.inl hpos
        · have hc' : c ∈ JavaScriptChunker.chunksCore P (pySplitlines s) filePath := by
            simpa [JavaScriptChunker.parse_file, hemp] using hc
          have h := chunksCore_props c hc'
          exact ⟨h.1, Or.inl h.2.1⟩
  · intro read maxLines stem filePath c hc
    cases read with
    | unreadable =>
        simp only [SmartFileChunker._chunk_by_lines, List.mem_singleton] at hc
        subst hc
        exact ⟨Nat.le_refl 1, Nat.le_refl 1⟩
    | content s =>
        by_cases hml : maxLines = 0
        · subst hml
          simp [SmartFileChunker._chunk_by_lines] at hc
          subst hc
          exact ⟨Nat.le_refl 1, Nat.le_refl 1⟩
        · have hc' : c ∈ (rangeStep (pyReadLines s).length maxLines).map fun i =>
              ({ name := stem ++ "_chunk_" ++ toString (i / maxLines + 1)
                 chunk_type := ChunkType.VARIABLE
                 content := String.join (((pyReadLines s).drop i).take maxLines)
                 start_line := i + 1
                 end_line := Nat.min (i + maxLines) (pyReadLines s).length
                 file_path := filePath } : CodeChunk) := by
            simpa [SmartFileChunker._chunk_by_lines, hml] using hc
          rcases List.mem_map.mp hc' with ⟨i, hi, hmk⟩
          have hb := rangeStepAux_mem (pyReadLines s).length 0 (pyReadLines s).length maxLines i hi
          subst hmk
          constructor
          · show 1 ≤ i + 1
            omega
          · show i + 1 ≤ Nat.min (i + maxLines) (pyReadLines s).length
            rw [Nat.le_min]
            omega

/-- Counterexample to C1 as stated: on an empty but readable file the
JavaScript chunker's fallback chunk has `end_line = 0 < 1 = start_line`. -/
theorem chunk_start_end_invariant_counterexample :
    ¬ (∀ c ∈ JavaScriptChunker.parse_file jsDefaultPatterns (ReadResult.content "") "f" "f.ts",
        1 ≤ c.start_line ∧ c.start_line ≤ c.end_line) := by
  decide

/-- Witness for C1 (amended), at a one-line Python file consisting of a
single import statement. -/
theorem chunk_start_end_invariant_witness :
    1 ≤ (CodeChunk.mk "imports" ChunkType.IMPORT "import os" 1 1 "m.py"
          none none none 0).start_line ∧
    ((CodeChunk.mk "imports" ChunkType.IMPORT "import os" 1 1 "m.py"
          none none none 0).start_line ≤
        (CodeChunk.mk "imports" ChunkType.IMPORT "import os" 1 1 "m.py"
          none none none 0).end_line ∨
      ((CodeChunk.mk "imports" ChunkType.IMPORT "import os" 1 1 "m.py"
          none none none 0).end_line = 0 ∧
       (CodeChunk.mk "imports" ChunkType.IMPORT "import os" 1 1 "m.py"
          none none none 0).start_line = 1 ∧
       (CodeChunk.mk "imports" ChunkType.IMPORT "import os" 1 1 "m.py"
          none none none 0).content = "")) :=
  chunk_start_end_invariant_amended.1 (ReadResult.content "import os")
    (fun _ => some [PyStmt.importStmt 1 1]) "m" "m.py"
    (by
      intro s body hs hb
      injection hs with hs'
      subst hs'
      injection hb with hb'
      subst hb'
      decide)
    (CodeChunk.mk "imports" ChunkType.IMPORT "import os" 1 1 "m.py" none none none 0)
    (by decide)

/-- Claim C3: `should_include_file` performs its checks in the fixed
order not-accessible, binary, too-large (the reason carrying the byte
count), gitignore, default-ignore-pattern, not-text; the first failing
check determines the reason, and passing all checks yields `(True, "")`. -/
theorem should_include_file_check_order :
    ∀ (info : Option FileInfo) (maxSize : Nat) (git : Option Bool) (ign : Bool),
      (info = none →
        SmartFileFilter.should_include_file info maxSize git ign =
          (false, "file_not_accessible")) ∧
      (∀ i, info = some i →
        (i.file_type = FileType.BINARY →
          SmartFileFilter.should_include_file info maxSize git ign = (false, "binary_file")) ∧
        (i.file_type ≠ FileType.BINARY → maxSize < i.size_bytes →
          SmartFileFilter.should_include_file info maxSize git ign =
            (false, "file_too_large_" ++ toString i.size_bytes ++ "_bytes")) ∧
        (i.file_type ≠ FileType.BINARY → i.size_bytes ≤ maxSize → git = some true →
          SmartFileFilter.should_include_file info maxSize git ign =
            (false, "gitignore_pattern")) ∧
        (i.file_type ≠ FileType.BINARY → i.size_bytes ≤ maxSize → git ≠ some true →
          ign = true →
          SmartFileFilter.should_include_file info maxSize git ign = (false, "ignore_pattern")) ∧
        (i.file_type ≠ FileType.BINARY → i.size_bytes ≤ maxSize → git ≠ some true →
          ign = false → i.is_text = false →
          SmartFileFilter.should_include_file info maxSize git ign = (false, "not_text_file")) ∧
        (i.file_type ≠ FileType.BINARY → i.size_bytes ≤ maxSize → git ≠ some true →
          ign = false → i.is_text = true →
          SmartFileFilter.should_include_file info maxSize git ign = (true, ""))) := by
  intro info maxSize git ign
  refine ⟨?_, ?_⟩
  · rintro rfl; rfl
  · rintro i rfl
    have hgit : git ≠ some true → git.getD false = false := by
      intro h
      cases git with
      | none => rfl
      | some b =>
          cases b with
          | true => exact absurd rfl h
          | false => rfl
    refine ⟨?_, ?_, ?_, ?_, ?_, ?_⟩ <;>
      simp only [SmartFileFilter.should_include_file]
    · intro hb
      rw [if_pos hb]
    · intro hb hs
      rw [if_neg hb, if_pos hs]
    · intro hb hs hg
      rw [if_neg hb, if_neg (show ¬ maxSize < i.size_bytes by omega)]
      simp [hg]
    · intro hb hs hg hi
      rw [if_neg hb, if_neg (show ¬ maxSize < i.size_bytes by omega)]
      simp [hgit hg, hi]
    · intro hb hs hg hi ht
      rw [if_neg hb, if_neg (show ¬ maxSize < i.size_bytes by omega)]
      simp [hgit hg, hi, ht]
    · intro hb hs hg hi ht
      rw [if_neg hb, if_neg (show ¬ maxSize < i.size_bytes by omega)]
      simp [hgit hg, hi, ht]

/-- Witness for C3: a source file of `max_file_size_bytes + 1` bytes is
excluded with the byte count embedded in the reason. -/
theorem should_include_file_check_order_witness :
    SmartFileFilter.should_include_file
      (some { path := "big.py", relative_path := "big.py", size_bytes := 1048577,
              file_type := FileType.SOURCE_CODE, is_text := true, last_modified := 0 })
      1048576 none false = (false, "file_too_large_1048577_bytes") :=
  ((should_include_file_check_order
      (some { path := "big.py", relative_path := "big.py", size_bytes := 1048577,
              file_type := FileType.SOURCE_CODE, is_text := true, last_modified := 0 })
      1048576 none false).2 _ rfl).2.1 (by decide) (by decide)

/-- Claim C4 (amended): for every chunk produced by the structured
(Python) or heuristic (JavaScript) extraction passes — i.e. every chunk
except a whole-file fallback chunk — the chunk's content is exactly the
join of the source lines in the inclusive 1-based range
`[start_line, end_line]`.  (A readable file's fallback chunk carries the
raw text instead, which differs when the text ends in a newline.) -/
theorem chunk_content_roundtrip_amended :
    (∀ (body : List PyStmt) (lines : List String) (filePath : String),
      (∀ n ∈ walkBFS body, wfNode lines.length n) →
      ∀ c ∈ pythonChunks body lines filePath,
        c.content = String.intercalate "\n" (slice1 lines c.start_line c.end_line)) ∧
    (∀ (P : JsPatterns) (lines : List String) (filePath : String),
      ∀ c ∈ JavaScriptChunker.chunksCore P lines filePath,
        c.content = String.intercalate "\n" (slice1 lines c.start_line c.end_line)) := by
  constructor
  · intro body lines filePath hwf c hc
    exact (pythonChunks_props hwf c hc).2.2
  · intro P lines filePath c hc
    exact (chunksCore_props c hc).2.2

/-- Counterexample to C4 as stated: the fallback chunk of a readable
Python file `"def f(\n"` (a syntax error) has content `"def f(\n"`, but
the join of source lines `[1, 1]` is `"def f("` — the trailing newline is
not reproduced. -/
theorem chunk_content_roundtrip_counterexample :
    ¬ (∀ c ∈ PythonChunker.parse_file (ReadResult.content "def f(\n") (fun _ => none) "m" "m.py",
        c.content = String.intercalate "\n"
          (slice1 (pySplitlines "def f(\n") c.start_line c.end_line)) := by
  decide

/-- Witness for C4 (amended), at a one-line Python file consisting of a
single import statement. -/
theorem chunk_content_roundtrip_witness :
    (CodeChunk.mk "imports" ChunkType.IMPORT "import os" 1 1 "m.py"
        none none none 0).content =
      String.intercalate "\n" (slice1 ["import os"]
        (CodeChunk.mk "imports" ChunkType.IMPORT "import os" 1 1 "m.py"
          none none none 0).start_line
        (CodeChunk.mk "imports" ChunkType.IMPORT "import os" 1 1 "m.py"
          none none none 0).end_line) :=
  chunk_content_roundtrip_amended.1 [PyStmt.importStmt 1 1] ["import os"] "m.py" (by decide)
    (CodeChunk.mk "imports" ChunkType.IMPORT "import os" 1 1 "m.py" none none none 0)
    (by decide)

/-- Claim C9: on a syntactically valid Python file whose AST contains
no import statements, class definitions or function definitions anywhere,
`PythonChunker.parse_file` returns the empty list — no fallback chunk. -/
theorem python_no_defs_empty :
    ∀ (s : String) (parse : String → Option (List PyStmt)) (stem filePath : String)
      (body : List PyStmt),
      parse s = some body →
      (∀ n ∈ walkBFS body,
        n.isImportStmt = false ∧ n.isClassDef = false ∧ n.isFuncDef = false) →
      PythonChunker.parse_file (ReadResult.content s) parse stem filePath = [] := by
  intro s parse stem filePath body hp hno
  have haux : ∀ (l : List PyStmt), (∀ n ∈ l, n.isImportStmt = false) →
      (l.flatMap fun n =>
        match n with
        | PyStmt.importStmt ln e => pyRange (ln - 1) (if e = 0 then ln else e)
        | _ => []) = [] := by
    intro l hl
    induction l with
    | nil => rfl
    | cons x xs ih =>
        have hx := hl x (List.mem_cons_self _ _)
        have hxs := ih fun n hn => hl n (List.mem_cons_of_mem _ hn)
        cases x <;> simp_all [PyStmt.isImportStmt, List.flatMap_cons]
  have haux2 : ∀ (l : List PyStmt), (∀ n ∈ l, n.isClassDef = false ∧ n.isFuncDef = false) →
      (l.flatMap fun n =>
        match n with
        | PyStmt.classDef nm ln e b => PythonChunker._extract_class nm ln e b (pySplitlines s) filePath
        | PyStmt.funcDef nm args ln e b =>
            if inClassBody body (PyStmt.funcDef nm args ln e b) then []
            else [PythonChunker._extract_function nm args ln e b (pySplitlines s) filePath none]
        | _ => []) = [] := by
    intro l hl
    induction l with
    | nil => rfl
    | cons x xs ih =>
        have hx := hl x (List.mem_cons_self _ _)
        have hxs := ih fun n hn => hl n (List.mem_cons_of_mem _ hn)
        cases x <;> simp_all [PyStmt.isClassDef, PyStmt.isFuncDef, List.flatMap_cons]
  simp only [PythonChunker.parse_file, hp]
  unfold pythonChunks
  rw [show pythonImportIdxs (walkBFS body) = [] from
      haux (walkBFS body) fun n hn => (hno n hn).1]
  rw [haux2 (walkBFS body) fun n hn => ⟨(hno n hn).2.1, (hno n hn).2.2⟩]
  rfl

/-- Witness for C9: a file containing only a top-level assignment. -/
theorem python_no_defs_empty_witness :
    PythonChunker.parse_file (ReadResult.content "x = 1")
      (fun _ => some [PyStmt.other 1 1 []]) "m" "m.py" = [] :=
  python_no_defs_empty "x = 1" (fun _ => some [PyStmt.other 1 1 []]) "m" "m.py"
    [PyStmt.other 1 1 []] rfl (by decide)

end ClaimTheorems
